import Mathlib

/-!
# Verification of the image-processing operation library

This file embeds the from-scratch image-processing operations of the
repository (noise injection, spatial filtering, gradient edge detection,
range normalization, frequency-domain filtering) as Lean definitions and
proves properties of them.

Modelling conventions:
* A pixel buffer is a pair of dimensions `h w : Nat` together with a total
  function `Nat → Nat → ℚ` (float samples) or `Nat → Nat → ℕ` (uint8
  samples); only indices `i < h`, `j < w` are meaningful.
* numpy float arithmetic is modelled over `ℚ` (and `ℝ` where the source
  calls `sqrt`/`exp`); a float division whose divisor is zero produces
  NaN/Inf in numpy, which is modelled by `Option` with `none` standing for
  the NaN/Inf garbage values.
* `astype(np.uint8)` truncates toward zero and wraps modulo 256 for
  in-range nonnegative floats; it is modelled by `u8ofQ`/`u8ofR`.
* Random draws (`np.random.random`, `cv2.randu`, ...) are passed in as
  oracle functions, matching the spec requirement that the randomness
  source be seedable.
-/

/-- Maximum of a list of values, `d` being returned for the empty list
(numpy's `.max()` rejects empty arrays; all uses here are nonempty). -/
def listMax {α : Type} [LinearOrder α] (d : α) : List α → α
  | [] => d
  | [a] => a
  | a :: b :: l => max a (listMax d (b :: l))

/-- Minimum of a list of values, `d` for the empty list. -/
def listMin {α : Type} [LinearOrder α] (d : α) : List α → α
  | [] => d
  | [a] => a
  | a :: b :: l => min a (listMin d (b :: l))

/-- Row-major list of all index pairs of an `h × w` buffer. -/
def idxs (h w : Nat) : List (Nat × Nat) :=
  (List.range h).flatMap fun i => (List.range w).map fun j => (i, j)

/-- `numpy` maximum of an `h × w` rational buffer. -/
def matMaxQ (h w : Nat) (f : Nat → Nat → ℚ) : ℚ :=
  listMax 0 ((idxs h w).map fun p => f p.1 p.2)

/-- `numpy` minimum of an `h × w` rational buffer. -/
def matMinQ (h w : Nat) (f : Nat → Nat → ℚ) : ℚ :=
  listMin 0 ((idxs h w).map fun p => f p.1 p.2)

/-- `numpy` maximum of an `h × w` real buffer. -/
noncomputable def matMaxR (h w : Nat) (f : Nat → Nat → ℝ) : ℝ :=
  listMax 0 ((idxs h w).map fun p => f p.1 p.2)

/-- `numpy` minimum of an `h × w` real buffer. -/
noncomputable def matMinR (h w : Nat) (f : Nat → Nat → ℝ) : ℝ :=
  listMin 0 ((idxs h w).map fun p => f p.1 p.2)

/-- `astype(np.uint8)` on a float sample: truncate toward zero, wrap mod 256
(the behaviour for in-range and positive out-of-range values; all verified
uses are nonnegative). -/
def u8ofQ (q : ℚ) : ℕ := (Int.emod ⌊q⌋ 256).toNat

/-- `astype(np.uint8)` on a real sample. -/
noncomputable def u8ofR (x : ℝ) : ℕ := (Int.emod ⌊x⌋ 256).toNat

/-- `np.clip(·, 0, 255).astype(np.uint8)` on a float sample. -/
def u8clip (q : ℚ) : ℕ := (⌊max 0 (min 255 q)⌋).toNat

/-- Float division with NaN/Inf tracking: dividing by zero yields `none`
(numpy produces NaN or ±Inf there), otherwise the exact quotient. -/
def fdiv (a b : ℚ) : Option ℚ := if b = 0 then none else some (a / b)

/-- Real division with NaN/Inf tracking. -/
noncomputable def fdivR (a b : ℝ) : Option ℝ := if b = 0 then none else some (a / b)

/-- View a list-of-rows literal as a buffer function (out-of-range reads 0). -/
def matOfLists (l : List (List ℚ)) : Nat → Nat → ℚ :=
  fun i j => (l.getD i []).getD j 0

/-! ## Noise injection

`src/Backend/operations/noise.py` (`add_noise`) and
`src/ops/noise_ops.py` (`add_salt_pepper_noise`). -/

/-- The per-pixel result buffer of `add_noise` in
`src/Backend/operations/noise.py`.

* `img` is the uint8 input (`image`); `image.astype(np.float32)` is the
  coercion `ℚ` of its samples.
* `noiseDraw` is the oracle for the Gaussian / uniform perturbation field
  (`np.random.normal(mean, clamped sigma, shape)` resp.
  `np.random.uniform(low, high, shape)`; the clamping
  `sigma = max(0, min(50, sigma))` constrains the distribution the oracle
  is drawn from, not the per-sample data path).
* `rnd` is the oracle for `np.random.random(img_float.shape[:2])`: one
  draw per pixel position, shared across channels.
* For the salt-and-pepper branch, `ratio` is clamped to `[0, 0.1]`
  (`ratio = max(0, min(0.1, ratio))`), then `noisy[salt_pepper < r*split] = 255`
  is applied first and `noisy[salt_pepper > 1 - r*(1-split)] = 0` second,
  so the pepper assignment overwrites where both conditions hold.
* An unrecognized `noise_type` matches no branch, leaving
  `noisy = img_float.copy()` untouched.
* Finally `np.clip(noisy, 0, 255).astype(np.uint8)`. -/
def add_noise_val (img : Nat → Nat → ℕ) (noiseType : String)
    (ratio saltVsPepper : ℚ) (noiseDraw rnd : Nat → Nat → ℚ) :
    Nat → Nat → ℕ := fun i j =>
  let imgF : ℚ := (img i j : ℚ)
  let noisy : ℚ :=
    if noiseType = "gaussian" then imgF + noiseDraw i j
    else if noiseType = "uniform" then imgF + noiseDraw i j
    else if noiseType = "salt_pepper" then
      let r : ℚ := max 0 (min (1/10) ratio)
      let afterSalt : ℚ := if rnd i j < r * saltVsPepper then 255 else imgF
      if rnd i j > 1 - r * (1 - saltVsPepper) then 0 else afterSalt
    else imgF
  u8clip noisy

/-- `add_noise` of `src/Backend/operations/noise.py` as seen by a caller:
the Python function contains no `raise` statement on any path (an
unrecognized `noise_type` silently falls through), so every call returns a
result buffer; `Except` models the absent exception channel. -/
def add_noise (img : Nat → Nat → ℕ) (noiseType : String)
    (ratio saltVsPepper : ℚ) (noiseDraw rnd : Nat → Nat → ℚ) :
    Except String (Nat → Nat → ℕ) :=
  Except.ok (add_noise_val img noiseType ratio saltVsPepper noiseDraw rnd)

/-- `add_salt_pepper_noise` of `src/ops/noise_ops.py`.

* `amount <= 0.0` returns the untouched copy of the input.
* `rnd` is the oracle for `cv2.randu(rnd, 0.0, 1.0)`, one draw per pixel.
* `salt_mask = rnd < amount*salt_vs_pepper` (`cv2.compare ... CMP_LT`);
  `pepper_mask = (rnd < amount) and not salt_mask`; `cv2.copyTo` writes
  255 under the salt mask and 0 under the pepper mask (the masks are
  disjoint by construction, so the order is immaterial). -/
def add_salt_pepper_noise (img : Nat → Nat → ℕ) (amount saltVsPepper : ℚ)
    (rnd : Nat → Nat → ℚ) : Nat → Nat → ℕ :=
  if amount ≤ 0 then img
  else fun i j =>
    if rnd i j < amount * saltVsPepper then 255
    else if rnd i j < amount then 0
    else img i j

/-! ## Edge detection

`src/Backend/operations/edge_detection.py`. -/

/-- Clamp an integer index into `[0, n-1]`, as `np.pad(·, p, mode='edge')`
does for positions inside the padded array. -/
def clampIdx (z : ℤ) (n : Nat) : Nat := (min (max z 0) ((n : ℤ) - 1)).toNat

/-- Sample of `np.pad(image, pad, mode='edge')` at padded position `(r, c)`
for an `h × w` image `g`. -/
def paddedVal (h w pad : Nat) (g : Nat → Nat → ℚ) (r c : Nat) : ℚ :=
  g (clampIdx ((r : ℤ) - pad) h) (clampIdx ((c : ℤ) - pad) w)

/-- `convolve2d_edge(image, kernel, pad)` of
`src/Backend/operations/edge_detection.py` at output pixel `(i, j)`:

```
padded = np.pad(image, pad_size, mode='edge')
region = padded[i:i+kernel_size, j:j+kernel_size]
result[i, j] = np.sum(region * kernel)
```

`rh × rw` is the shape of `region`: numpy slicing clips the slice at the
end of the padded array, so a trailing window can have a single row
(resp. column).  `region * kernel` then broadcasts that single row
(resp. column) across the kernel rows (resp. columns), i.e. the region
index used for kernel row `a` is `0` whenever `rh = 1`, and likewise for
columns.  (With `pad = 1` and a 3×3 kernel every window is full, so the
broadcast cases arise only for the `pad = 0` Roberts path.) -/
def convolve2d_edge (h w : Nat) (g : Nat → Nat → ℚ) (k pad : Nat)
    (ker : Nat → Nat → ℚ) (i j : Nat) : ℚ :=
  let rh := min (i + k) (h + 2 * pad) - i
  let rw := min (j + k) (w + 2 * pad) - j
  ∑ a ∈ Finset.range k, ∑ b ∈ Finset.range k,
    ker a b * paddedVal h w pad g (i + (if rh = 1 then 0 else a))
      (j + (if rw = 1 then 0 else b))

/-- The Sobel horizontal kernel `[[-1,0,1],[-2,0,2],[-1,0,1]]`. -/
def sobelKx : Nat → Nat → ℚ := matOfLists [[-1, 0, 1], [-2, 0, 2], [-1, 0, 1]]

/-- The Sobel vertical kernel `[[-1,-2,-1],[0,0,0],[1,2,1]]`. -/
def sobelKy : Nat → Nat → ℚ := matOfLists [[-1, -2, -1], [0, 0, 0], [1, 2, 1]]

/-- The Prewitt horizontal kernel. -/
def prewittKx : Nat → Nat → ℚ := matOfLists [[-1, 0, 1], [-1, 0, 1], [-1, 0, 1]]

/-- The Prewitt vertical kernel. -/
def prewittKy : Nat → Nat → ℚ := matOfLists [[-1, -1, -1], [0, 0, 0], [1, 1, 1]]

/-- The Roberts kernel `[[1,0],[0,-1]]`. -/
def robertsKx : Nat → Nat → ℚ := matOfLists [[1, 0], [0, -1]]

/-- The Roberts kernel `[[0,1],[-1,0]]`. -/
def robertsKy : Nat → Nat → ℚ := matOfLists [[0, 1], [-1, 0]]

/-- `grad_x = convolve2d_edge(gray, kernel_x)` of `sobel_edge`
(default `pad=1`), on a grayscale input. -/
def sobelGradX (h w : Nat) (g : Nat → Nat → ℚ) : Nat → Nat → ℚ :=
  fun i j => convolve2d_edge h w g 3 1 sobelKx i j

/-- `grad_y` of `sobel_edge`. -/
def sobelGradY (h w : Nat) (g : Nat → Nat → ℚ) : Nat → Nat → ℚ :=
  fun i j => convolve2d_edge h w g 3 1 sobelKy i j

/-- `grad_x` of `prewitt_edge`. -/
def prewittGradX (h w : Nat) (g : Nat → Nat → ℚ) : Nat → Nat → ℚ :=
  fun i j => convolve2d_edge h w g 3 1 prewittKx i j

/-- `grad_y` of `prewitt_edge`. -/
def prewittGradY (h w : Nat) (g : Nat → Nat → ℚ) : Nat → Nat → ℚ :=
  fun i j => convolve2d_edge h w g 3 1 prewittKy i j

/-- `grad_x = convolve2d_edge(gray, kernel_x, pad=0)` of `roberts_edge`. -/
def robertsGradX (h w : Nat) (g : Nat → Nat → ℚ) : Nat → Nat → ℚ :=
  fun i j => convolve2d_edge h w g 2 0 robertsKx i j

/-- `grad_y` of `roberts_edge`. -/
def robertsGradY (h w : Nat) (g : Nat → Nat → ℚ) : Nat → Nat → ℚ :=
  fun i j => convolve2d_edge h w g 2 0 robertsKy i j

/-- `magnitude = np.sqrt(grad_x**2 + grad_y**2)` pixelwise. -/
noncomputable def gradMagnitude (gx gy : Nat → Nat → ℚ) : Nat → Nat → ℝ :=
  fun i j => Real.sqrt (((gx i j : ℝ)) ^ 2 + ((gy i j : ℝ)) ^ 2)

/-- The unguarded rescale `(m / m.max() * 255).astype(np.uint8)` used by
`sobel_edge` / `prewitt_edge` (all three outputs) and by `roberts_edge`
for the magnitude.  When the maximum is zero every division is `0/0`
(NaN) or `x/0` (±Inf), so the buffer entries are modelled as `none`. -/
noncomputable def rescaleU8R (h w : Nat) (m : Nat → Nat → ℝ) : Nat → Nat → Option ℕ :=
  let mx := matMaxR h w m
  fun i j => if mx = 0 then none else some (u8ofR (m i j / mx * 255))

/-- The unguarded rescale on a rational (float32) buffer, for the
gradient channels of `sobel_edge` and `prewitt_edge`. -/
def rescaleU8Q (h w : Nat) (m : Nat → Nat → ℚ) : Nat → Nat → Option ℕ :=
  let mx := matMaxQ h w m
  fun i j => if mx = 0 then none else some (u8ofQ (m i j / mx * 255))

/-- The guarded rescale of `roberts_edge`:
`(g / g.max() * 255).astype(np.uint8) if g.max() > 0 else g`.
When the guard fails the untouched float32 buffer itself is returned, so
the result entries are rationals (uint8 values coerced where rescaled). -/
def rescaleGuardedQ (h w : Nat) (m : Nat → Nat → ℚ) : Nat → Nat → Option ℚ :=
  let mx := matMaxQ h w m
  fun i j => if 0 < mx then some ((u8ofQ (m i j / mx * 255) : ℚ)) else some (m i j)

/-- `sobel_edge(image)` on a grayscale input: returns
`(magnitude, grad_x, grad_y)` after the per-channel rescales; `grad_x` is
passed through `np.abs` first, `grad_y` is not. -/
noncomputable def sobel_edge (h w : Nat) (g : Nat → Nat → ℚ) :
    (Nat → Nat → Option ℕ) × (Nat → Nat → Option ℕ) × (Nat → Nat → Option ℕ) :=
  let gx := sobelGradX h w g
  let gy := sobelGradY h w g
  (rescaleU8R h w (gradMagnitude gx gy),
   rescaleU8Q h w (fun i j => |gx i j|),
   rescaleU8Q h w gy)

/-- `prewitt_edge(image)` on a grayscale input. -/
noncomputable def prewitt_edge (h w : Nat) (g : Nat → Nat → ℚ) :
    (Nat → Nat → Option ℕ) × (Nat → Nat → Option ℕ) × (Nat → Nat → Option ℕ) :=
  let gx := prewittGradX h w g
  let gy := prewittGradY h w g
  (rescaleU8R h w (gradMagnitude gx gy),
   rescaleU8Q h w (fun i j => |gx i j|),
   rescaleU8Q h w gy)

/-- `roberts_edge(image)` on a grayscale input: the magnitude rescale is
unguarded, the two gradient rescales carry the `if ... max() > 0` guard. -/
noncomputable def roberts_edge (h w : Nat) (g : Nat → Nat → ℚ) :
    (Nat → Nat → Option ℕ) × (Nat → Nat → Option ℚ) × (Nat → Nat → Option ℚ) :=
  let gx := robertsGradX h w g
  let gy := robertsGradY h w g
  (rescaleU8R h w (gradMagnitude gx gy),
   rescaleGuardedQ h w (fun i j => |gx i j|),
   rescaleGuardedQ h w gy)

/-- Modelled from the spec's sentence for claim C3 only (not from the
source): the Roberts gradient as a kernel-weighted sum over a
**zero-padded** window, "zeros appended rather than edge-replicated
samples", to be compared against `convolve2d_edge` with `pad=0`. -/
def robertsZeroPadConv (h w : Nat) (g : Nat → Nat → ℚ) (ker : Nat → Nat → ℚ)
    (i j : Nat) : ℚ :=
  ∑ a ∈ Finset.range 2, ∑ b ∈ Finset.range 2,
    ker a b * (if i + a < h ∧ j + b < w then g (i + a) (j + b) else 0)

/-! ## Enhancement

`normalize_image` of `src/Backend/operations/enhancement.py`. -/

/-- `normalize_image(image, range_type)`:

```
img_float = image.astype(np.float32)
if range_type == '0-1':
    if img_float.max() > 0:
        normalized = (img_float - img_float.min()) / (img_float.max() - img_float.min())
    else:
        normalized = img_float
else:
    ... same with `* 255`
return normalized.astype(np.uint8)
```

The guard tests only `max > 0`; for a constant nonzero buffer the divisor
`max - min` is zero and numpy produces NaN (`none` here). -/
def normalize_image (h w : Nat) (img : Nat → Nat → ℕ) (rangeType : String) :
    Nat → Nat → Option ℕ :=
  let f : Nat → Nat → ℚ := fun i j => (img i j : ℚ)
  let mx := matMaxQ h w f
  let mn := matMinQ h w f
  fun i j =>
    let normalized : Option ℚ :=
      if rangeType = "0-1" then
        if 0 < mx then fdiv (f i j - mn) (mx - mn) else some (f i j)
      else
        if 0 < mx then (fdiv (f i j - mn) (mx - mn)).map (· * 255) else some (f i j)
    normalized.map u8ofQ

/-! ## Spatial filters

`src/Backend/operations/filters.py`. -/

/-- `create_gaussian_kernel(size, sigma)`:

```
center = size // 2
kernel[i, j] = np.exp(-((i-center)**2 + (j-center)**2) / (2 * sigma**2))
kernel = kernel / np.sum(kernel)
```
-/
noncomputable def create_gaussian_kernel (size : Nat) (sigma : ℝ) : Nat → Nat → ℝ :=
  let center : Nat := size / 2
  let raw : Nat → Nat → ℝ := fun i j =>
    Real.exp (-(((i : ℝ) - center) ^ 2 + ((j : ℝ) - center) ^ 2) / (2 * sigma ^ 2))
  let total : ℝ := ∑ i ∈ Finset.range size, ∑ j ∈ Finset.range size, raw i j
  fun i j => raw i j / total

/-- Insert into an ascending list (helper for `np.median`). -/
def insertAsc (a : ℚ) : List ℚ → List ℚ
  | [] => [a]
  | b :: l => if a ≤ b then a :: b :: l else b :: insertAsc a l

/-- Sort ascending (helper for `np.median`). -/
def sortAsc : List ℚ → List ℚ
  | [] => []
  | a :: l => insertAsc a (sortAsc l)

/-- `np.median` of the values of a flattened window: middle element of the
sorted data for an odd count, mean of the two middle elements otherwise. -/
def medianList (l : List ℚ) : ℚ :=
  let s := sortAsc l
  if l.length % 2 = 1 then s.getD (l.length / 2) 0
  else (s.getD (l.length / 2 - 1) 0 + s.getD (l.length / 2) 0) / 2

/-! ## Frequency-domain filter

`frequency_filter` of `src/Backend/operations/frequency.py`. -/

/-- 2D discrete Fourier transform (`fftpack.fft2`) of an `M × N` buffer:
`F(u,v) = Σ_{x,y} g(x,y) · exp(-2πi(ux/M + vy/N))`. -/
noncomputable def fft2 (M N : Nat) (g : Nat → Nat → ℚ) (u v : Nat) : ℂ :=
  ∑ x ∈ Finset.range M, ∑ y ∈ Finset.range N,
    (g x y : ℂ) *
      Complex.exp (-(2 * Real.pi * Complex.I) *
        ((u : ℂ) * x / M + (v : ℂ) * y / N))

/-- Index map of `np.roll(·, s)` along an axis of length `n`:
output position `i` reads input position `(i - s) mod n`.
`fftpack.fftshift` rolls by `n // 2`. -/
def shiftIdx (n s i : Nat) : Nat := ((((i : ℤ) - s) % n)).toNat

/-- The centred-circle distance array of `frequency_filter`:
`distance[i][j] = sqrt((j - ccol)^2 + (i - crow)^2)` with
`crow, ccol = rows // 2, cols // 2`. -/
noncomputable def freqDist (rows cols i j : Nat) : ℝ :=
  Real.sqrt (((j : ℝ) - (cols / 2 : Nat)) ^ 2 + ((i : ℝ) - (rows / 2 : Nat)) ^ 2)

open Classical in
/-- The shifted, masked spectrum of `frequency_filter`:
`fshift = fftshift(fft2(gray))`, then
`fshift_filtered = fshift * mask` with `mask = distance <= cutoff` for
`filter_type == 'low'` and `mask = distance > cutoff` otherwise. -/
noncomputable def fshiftFiltered (M N : Nat) (g : Nat → Nat → ℚ)
    (filterType : String) (cutoff : ℝ) (i j : Nat) : ℂ :=
  let fsh : ℂ := fft2 M N g (shiftIdx M (M / 2) i) (shiftIdx N (N / 2) j)
  let inMask : Prop :=
    if filterType = "low" then freqDist M N i j ≤ cutoff else cutoff < freqDist M N i j
  if inMask then fsh else 0

/-- The inverse-transformed magnitude of `frequency_filter` before the final
rescale: `np.abs(ifft2(ifftshift(fshift_filtered)))`, where
`ifftshift` rolls by `-(n // 2)` (output `i` reads input `(i + n//2) mod n`)
and `ifft2 S (x,y) = (1/(MN)) Σ_{u,v} S(u,v) exp(+2πi(ux/M + vy/N))`. -/
noncomputable def frequency_filter_pre (M N : Nat) (g : Nat → Nat → ℚ)
    (filterType : String) (cutoff : ℝ) : Nat → Nat → ℝ :=
  let unshifted : Nat → Nat → ℂ := fun u v =>
    fshiftFiltered M N g filterType cutoff ((u + M / 2) % M) ((v + N / 2) % N)
  fun x y =>
    Complex.abs
      ((1 / ((M : ℂ) * N)) *
        ∑ u ∈ Finset.range M, ∑ v ∈ Finset.range N,
          unshifted u v *
            Complex.exp ((2 * Real.pi * Complex.I) *
              ((u : ℂ) * x / M + (v : ℂ) * y / N)))

/-- `frequency_filter(image, filter_type, cutoff)` on a grayscale input:
the filtered magnitude followed by the final rescale
`(img - img.min()) / (img.max() - img.min()) * 255` and the uint8 cast.
The rescale is unguarded: a constant filtered buffer makes the divisor
zero and numpy produces NaN (`none`). -/
noncomputable def frequency_filter (M N : Nat) (g : Nat → Nat → ℚ)
    (filterType : String) (cutoff : ℝ) : Nat → Nat → Option ℕ :=
  let m := frequency_filter_pre M N g filterType cutoff
  let mx := matMaxR M N m
  let mn := matMinR M N m
  fun i j => ((fdivR (m i j - mn) (mx - mn)).map (· * 255)).map u8ofR

/-! ## Allocation-store model of the operations cited by the frame claim

To express that an operation does not mutate its input buffer and returns
a freshly allocated result, the numpy arrays of
`median_filter_2d` (`src/Backend/operations/filters.py`) and
`add_noise` (`src/Backend/operations/noise.py`) are given explicit
identities in a store; every allocation (`astype`, `.copy()`,
`np.zeros_like`, `np.pad`, `np.random.*`, arithmetic on whole arrays,
`np.clip(..).astype(..)`) appends a fresh buffer, and every in-place
write (`result[i, j] = ...`, `noisy[mask] = ...`) updates one store id. -/

/-- A buffer with its dimensions and (total) sample function. -/
structure Buf where
  bh : Nat
  bw : Nat
  val : Nat → Nat → ℚ

/-- The store: buffers addressed by their list index. -/
abbrev Store := List Buf

/-- Read a buffer (dangling ids read an empty dummy). -/
def Store.read (σ : Store) (i : Nat) : Buf := List.getD σ i ⟨0, 0, fun _ _ => 0⟩

/-- Allocate a fresh buffer, returning the new store and the fresh id. -/
def Store.alloc (σ : Store) (b : Buf) : Store × Nat := (σ ++ [b], List.length σ)

/-- In-place write to the buffer at id `i`. -/
def Store.write (σ : Store) (i : Nat) (b : Buf) : Store := List.set σ i b

/-- Number of allocated buffers. -/
def Store.size (σ : Store) : Nat := List.length σ

/-- `np.pad(b, pad, mode='edge')` as a fresh buffer value. -/
def edgePadBuf (b : Buf) (pad : Nat) : Buf :=
  ⟨b.bh + 2 * pad, b.bw + 2 * pad, fun r c =>
    b.val (clampIdx ((r : ℤ) - pad) b.bh) (clampIdx ((c : ℤ) - pad) b.bw)⟩

/-- `result[i, j] = v` on a buffer value. -/
def setPix (b : Buf) (i j : Nat) (v : ℚ) : Buf :=
  ⟨b.bh, b.bw, fun a c => if a = i ∧ c = j then v else b.val a c⟩

/-- `noisy[mask] = v` on a buffer value, for a boolean pixel mask. -/
def maskSet (b : Buf) (mask : Nat → Nat → Bool) (v : ℚ) : Buf :=
  ⟨b.bh, b.bw, fun a c => if mask a c then v else b.val a c⟩

/-- `np.median(padded[i:i+k, j:j+k])`. -/
def medianWindow (padded : Buf) (ks i j : Nat) : ℚ :=
  medianList ((idxs ks ks).map fun p => padded.val (i + p.1) (j + p.2))

/-- `median_filter_2d(image, kernel_size, pad)` of
`src/Backend/operations/filters.py` over the store:

```
padded = np.pad(image, pad, mode='edge')      # fresh allocation
result = np.zeros_like(image)                 # fresh allocation
for i in range(h):
    for j in range(w):
        result[i, j] = np.median(padded[i:i+kernel_size, j:j+kernel_size])
return result
```
-/
def median_filter_2d_st (σ : Store) (imgId ks pad : Nat) : Store × Nat :=
  let img := σ.read imgId
  let a1 := σ.alloc (edgePadBuf img pad)
  let padId := a1.2
  let a2 := a1.1.alloc ⟨img.bh, img.bw, fun _ _ => 0⟩
  let resId := a2.2
  let final := (idxs img.bh img.bw).foldl
    (fun τ p =>
      τ.write resId
        (setPix (τ.read resId) p.1 p.2 (medianWindow (τ.read padId) ks p.1 p.2)))
    a2.1
  (final, resId)

/-- `add_noise(image, noise_type, params)` of
`src/Backend/operations/noise.py` over the store:

```
img_float = image.astype(np.float32)          # fresh allocation
noisy = img_float.copy()                      # fresh allocation
if gaussian/uniform: noisy = img_float + draw # rebinds to a fresh array
elif salt_pepper:
    salt_pepper = np.random.random(...)       # fresh allocation
    noisy[salt_pepper < r*split] = 255        # in-place write to noisy
    noisy[salt_pepper > 1 - r*(1-split)] = 0  # in-place write to noisy
noisy = np.clip(noisy, 0, 255).astype(np.uint8)  # fresh allocation
return noisy
```
-/
def add_noise_st (σ : Store) (imgId : Nat) (noiseType : String)
    (ratio saltVsPepper : ℚ) (noiseDraw rnd : Nat → Nat → ℚ) : Store × Nat :=
  let img := σ.read imgId
  let a1 := σ.alloc img
  let floatId := a1.2
  let a2 := a1.1.alloc (a1.1.read floatId)
  let noisyId := a2.2
  let afterBranch : Store × Nat :=
    if noiseType = "gaussian" ∨ noiseType = "uniform" then
      a2.1.alloc ⟨img.bh, img.bw, fun i j => (a2.1.read floatId).val i j + noiseDraw i j⟩
    else if noiseType = "salt_pepper" then
      let r : ℚ := max 0 (min (1/10) ratio)
      let a3 := a2.1.alloc ⟨img.bh, img.bw, rnd⟩
      let s1 := a3.1.write noisyId
        (maskSet (a3.1.read noisyId) (fun i j => decide (rnd i j < r * saltVsPepper)) 255)
      let s2 := s1.write noisyId
        (maskSet (s1.read noisyId) (fun i j => decide (rnd i j > 1 - r * (1 - saltVsPepper))) 0)
      (s2, noisyId)
    else (a2.1, noisyId)
  let lastNoisy := afterBranch.1.read afterBranch.2
  let a4 := afterBranch.1.alloc
    ⟨lastNoisy.bh, lastNoisy.bw, fun i j => (u8clip (lastNoisy.val i j) : ℚ)⟩
  a4

/-! ## Basic lemmas about the buffer utilities -/

theorem le_listMax {α : Type} [LinearOrder α] (d : α) (l : List α) (x : α)
    (hx : x ∈ l) : x ≤ listMax d l := by
  induction l with
  | nil => cases hx
  | cons a l ih =>
    cases l with
    | nil =>
      rcases List.mem_singleton.mp hx with h
      simp [listMax, h]
    | cons b l2 =>
      rcases List.mem_cons.mp hx with h | h
      · simp [listMax, h]
      · exact le_trans (ih h) (le_max_right _ _)

theorem listMax_mem {α : Type} [LinearOrder α] (d : α) (l : List α)
    (h : l ≠ []) : listMax d l ∈ l := by
  induction l with
  | nil => exact absurd rfl h
  | cons a l ih =>
    cases l with
    | nil => simp [listMax]
    | cons b l2 =>
      rcases max_choice a (listMax d (b :: l2)) with h1 | h1
      · simp [listMax, h1]
      · simp only [listMax, h1]
        exact List.mem_cons_of_mem _ (ih (by simp))

theorem listMin_le {α : Type} [LinearOrder α] (d : α) (l : List α) (x : α)
    (hx : x ∈ l) : listMin d l ≤ x := by
  induction l with
  | nil => cases hx
  | cons a l ih =>
    cases l with
    | nil =>
      rcases List.mem_singleton.mp hx with h
      simp [listMin, h]
    | cons b l2 =>
      rcases List.mem_cons.mp hx with h | h
      · simp [listMin, h]
      · exact le_trans (min_le_right _ _) (ih h)

theorem listMin_mem {α : Type} [LinearOrder α] (d : α) (l : List α)
    (h : l ≠ []) : listMin d l ∈ l := by
  induction l with
  | nil => exact absurd rfl h
  | cons a l ih =>
    cases l with
    | nil => simp [listMin]
    | cons b l2 =>
      rcases min_choice a (listMin d (b :: l2)) with h1 | h1
      · simp [listMin, h1]
      · simp only [listMin, h1]
        exact List.mem_cons_of_mem _ (ih (by simp))

theorem listMax_eq_of_forall {α : Type} [LinearOrder α] (d c : α) (l : List α)
    (hne : l ≠ []) (hall : ∀ x ∈ l, x = c) : listMax d l = c :=
  hall _ (listMax_mem d l hne)

theorem listMin_eq_of_forall {α : Type} [LinearOrder α] (d c : α) (l : List α)
    (hne : l ≠ []) (hall : ∀ x ∈ l, x = c) : listMin d l = c :=
  hall _ (listMin_mem d l hne)

theorem mem_idxs (h w i j : Nat) : (i, j) ∈ idxs h w ↔ i < h ∧ j < w := by
  simp [idxs, List.mem_flatMap, List.mem_range]

theorem idxs_ne_nil (h w : Nat) (hh : 0 < h) (hw : 0 < w) : idxs h w ≠ [] := by
  intro hc
  have hm : (0, 0) ∈ idxs h w := (mem_idxs h w 0 0).mpr ⟨hh, hw⟩
  rw [hc] at hm
  cases hm

theorem matMaxQ_const (h w : Nat) (f : Nat → Nat → ℚ) (c : ℚ)
    (hh : 0 < h) (hw : 0 < w) (hc : ∀ i j, i < h → j < w → f i j = c) :
    matMaxQ h w f = c := by
  refine listMax_eq_of_forall _ _ _ (by simp [idxs_ne_nil h w hh hw]) ?_
  intro x hx
  rcases List.mem_map.mp hx with ⟨p, hp, rfl⟩
  rcases (mem_idxs h w p.1 p.2).mp hp with ⟨h1, h2⟩
  exact hc _ _ h1 h2

theorem matMinQ_const (h w : Nat) (f : Nat → Nat → ℚ) (c : ℚ)
    (hh : 0 < h) (hw : 0 < w) (hc : ∀ i j, i < h → j < w → f i j = c) :
    matMinQ h w f = c := by
  refine listMin_eq_of_forall _ _ _ (by simp [idxs_ne_nil h w hh hw]) ?_
  intro x hx
  rcases List.mem_map.mp hx with ⟨p, hp, rfl⟩
  rcases (mem_idxs h w p.1 p.2).mp hp with ⟨h1, h2⟩
  exact hc _ _ h1 h2

theorem matMaxR_const (h w : Nat) (f : Nat → Nat → ℝ) (c : ℝ)
    (hh : 0 < h) (hw : 0 < w) (hc : ∀ i j, i < h → j < w → f i j = c) :
    matMaxR h w f = c := by
  refine listMax_eq_of_forall _ _ _ (by simp [idxs_ne_nil h w hh hw]) ?_
  intro x hx
  rcases List.mem_map.mp hx with ⟨p, hp, rfl⟩
  rcases (mem_idxs h w p.1 p.2).mp hp with ⟨h1, h2⟩
  exact hc _ _ h1 h2

theorem matMinR_const (h w : Nat) (f : Nat → Nat → ℝ) (c : ℝ)
    (hh : 0 < h) (hw : 0 < w) (hc : ∀ i j, i < h → j < w → f i j = c) :
    matMinR h w f = c := by
  refine listMin_eq_of_forall _ _ _ (by simp [idxs_ne_nil h w hh hw]) ?_
  intro x hx
  rcases List.mem_map.mp hx with ⟨p, hp, rfl⟩
  rcases (mem_idxs h w p.1 p.2).mp hp with ⟨h1, h2⟩
  exact hc _ _ h1 h2

theorem le_matMaxQ (h w : Nat) (f : Nat → Nat → ℚ) (i j : Nat)
    (hi : i < h) (hj : j < w) : f i j ≤ matMaxQ h w f :=
  le_listMax _ _ _ (List.mem_map.mpr ⟨(i, j), (mem_idxs h w i j).mpr ⟨hi, hj⟩, rfl⟩)

theorem matMinQ_le (h w : Nat) (f : Nat → Nat → ℚ) (i j : Nat)
    (hi : i < h) (hj : j < w) : matMinQ h w f ≤ f i j :=
  listMin_le _ _ _ (List.mem_map.mpr ⟨(i, j), (mem_idxs h w i j).mpr ⟨hi, hj⟩, rfl⟩)

theorem u8clip_coe (n : ℕ) (hn : n ≤ 255) : u8clip (n : ℚ) = n := by
  have h1 : min 255 (n : ℚ) = (n : ℚ) := by
    refine min_eq_right ?_
    exact_mod_cast hn
  have h2 : max 0 (n : ℚ) = (n : ℚ) := max_eq_right (by positivity)
  rw [u8clip, h1, h2, Int.floor_natCast]
  simp

theorem u8clip_255 : u8clip 255 = 255 := by decide

theorem u8clip_zero : u8clip 0 = 0 := by decide

theorem u8ofQ_coe (n : ℕ) (hn : n ≤ 255) : u8ofQ (n : ℚ) = n := by
  rw [u8ofQ, Int.floor_natCast]
  have he : Int.emod (n : ℤ) 256 = (n : ℤ) :=
    Int.emod_eq_of_lt (by positivity) (by exact_mod_cast Nat.lt_succ_of_le hn)
  rw [he]
  simp

/-! ## Claim C2: salt-and-pepper edge parameters -/

/-- C2, counterexample: with `ratio = 1` and `salt_vs_pepper = 1` the
from-scratch `add_noise` does **not** turn every pixel into 255: on a 1×1
image of value 7 with per-pixel draw 1/2 the pixel stays 7, because the
ratio is first clamped to 0.1 and the draw is not below 0.1. -/
theorem add_noise_ratio_one_not_all_salt_cex :
    add_noise_val (fun _ _ => 7) "salt_pepper" 1 1 (fun _ _ => 0) (fun _ _ => 1/2) 0 0 = 7 ∧
    (7 : ℕ) ≠ 255 := by
  constructor
  · simp only [add_noise_val]
    rw [if_neg (show ¬("salt_pepper" = "gaussian") by decide),
        if_neg (show ¬("salt_pepper" = "uniform") by decide)]
    rw [if_pos (show True from trivial)]
    rw [if_neg (by norm_num : ¬((1:ℚ)/2 > 1 - max 0 (min (1/10) 1) * (1 - 1))),
        if_neg (by norm_num : ¬((1:ℚ)/2 < max 0 (min (1/10) 1) * 1))]
    exact u8clip_coe 7 (by norm_num)
  · decide

/-- C2, amended: with `ratio = 0` both salt-and-pepper implementations are
the identity transform; with `ratio = 1` and `split = 1` the
library-accelerated `add_salt_pepper_noise` sets every pixel to 255, but
the from-scratch `add_noise` first clamps the ratio to 0.1 and therefore
whitens exactly the pixels whose draw lies below 0.1, leaving the others
unchanged. -/
theorem salt_pepper_ratio_zero_identity_and_ratio_one
    (img : Nat → Nat → ℕ) (split : ℚ) (noiseDraw rnd : Nat → Nat → ℚ) (i j : Nat)
    (himg : img i j ≤ 255) (h0 : 0 ≤ rnd i j) (h1 : rnd i j < 1) :
    add_noise_val img "salt_pepper" 0 split noiseDraw rnd i j = img i j ∧
    add_salt_pepper_noise img 0 split rnd i j = img i j ∧
    add_salt_pepper_noise img 1 1 rnd i j = 255 ∧
    add_noise_val img "salt_pepper" 1 1 noiseDraw rnd i j =
      (if rnd i j < 1/10 then 255 else img i j) := by
  refine ⟨?_, ?_, ?_, ?_⟩
  · simp only [add_noise_val]
    norm_num
    rw [if_neg (not_lt.mpr h1.le), if_neg (not_lt.mpr h0)]
    exact u8clip_coe _ himg
  · simp [add_salt_pepper_noise]
  · simp only [add_salt_pepper_noise, one_mul]
    rw [if_neg (by norm_num : ¬(1:ℚ) ≤ 0)]
    simp [h1]
  · simp only [add_noise_val]
    rw [if_neg (show ¬("salt_pepper" = "gaussian") by decide),
        if_neg (show ¬("salt_pepper" = "uniform") by decide)]
    rw [if_pos (show True from trivial)]
    have hclamp : max (0:ℚ) (min (1/10) 1) = 1/10 := by norm_num
    rw [hclamp, mul_one]
    rw [if_neg (show ¬(rnd i j > 1 - 1/10 * (1 - 1)) by
      rw [show (1:ℚ) - 1/10 * (1 - 1) = 1 by norm_num]; exact not_lt.mpr h1.le)]
    split_ifs with hs
    · exact u8clip_255
    · exact u8clip_coe _ himg

/-- C2, witness for `salt_pepper_ratio_zero_identity_and_ratio_one` on a
concrete 1×1 image of value 7 with draw 1/2 and split 1/2. -/
theorem salt_pepper_ratio_zero_identity_and_ratio_one_witness :
    add_noise_val (fun _ _ => 7) "salt_pepper" 0 (1/2) (fun _ _ => 0) (fun _ _ => 1/2) 0 0 = 7 ∧
    add_salt_pepper_noise (fun _ _ => 7) 0 (1/2) (fun _ _ => 1/2) 0 0 = 7 ∧
    add_salt_pepper_noise (fun _ _ => 7) 1 1 (fun _ _ => 1/2) 0 0 = 255 ∧
    add_noise_val (fun _ _ => 7) "salt_pepper" 1 1 (fun _ _ => 0) (fun _ _ => 1/2) 0 0 =
      (if (1/2 : ℚ) < 1/10 then 255 else 7) :=
  salt_pepper_ratio_zero_identity_and_ratio_one (fun _ _ => 7) (1/2) (fun _ _ => 0)
    (fun _ _ => 1/2) 0 0 (by norm_num) (by norm_num) (by norm_num)

/-! ## Claim C5: unknown noise type -/

/-- C5, counterexample: calling `add_noise` with the unrecognized noise
type `"speckle"` does not fail — it returns a success buffer, and that
buffer equals the input (value 7 at pixel (0,0) of a 1×1 image). -/
theorem add_noise_unknown_type_cex :
    add_noise (fun _ _ => 7) "speckle" (1/20) (1/2) (fun _ _ => 0) (fun _ _ => 0) =
      Except.ok (add_noise_val (fun _ _ => 7) "speckle" (1/20) (1/2)
        (fun _ _ => 0) (fun _ _ => 0)) ∧
    add_noise_val (fun _ _ => 7) "speckle" (1/20) (1/2) (fun _ _ => 0) (fun _ _ => 0) 0 0 = 7 := by
  refine ⟨rfl, ?_⟩
  simp only [add_noise_val]
  rw [if_neg (show ¬("speckle" = "gaussian") by decide),
      if_neg (show ¬("speckle" = "uniform") by decide),
      if_neg (show ¬("speckle" = "salt_pepper") by decide)]
  exact u8clip_coe 7 (by norm_num)

/-- C5, amended: an unrecognized noise-type string is silently ignored by
`add_noise`: no branch of the if/elif chain matches, no exception is
raised, and the function returns a success buffer equal to the input
(the float copy clipped back to uint8). -/
theorem add_noise_unknown_type_silent_identity
    (img : Nat → Nat → ℕ) (nt : String) (ratio split : ℚ)
    (noiseDraw rnd : Nat → Nat → ℚ) (i j : Nat)
    (hg : nt ≠ "gaussian") (hu : nt ≠ "uniform") (hsp : nt ≠ "salt_pepper")
    (himg : img i j ≤ 255) :
    add_noise img nt ratio split noiseDraw rnd =
      Except.ok (add_noise_val img nt ratio split noiseDraw rnd) ∧
    add_noise_val img nt ratio split noiseDraw rnd i j = img i j := by
  refine ⟨rfl, ?_⟩
  simp only [add_noise_val]
  rw [if_neg hg, if_neg hu, if_neg hsp]
  exact u8clip_coe _ himg

/-- C5, witness for `add_noise_unknown_type_silent_identity` with the
unrecognized type `"banding"` on a 1×1 image of value 9. -/
theorem add_noise_unknown_type_silent_identity_witness :
    add_noise (fun _ _ => 9) "banding" 0 0 (fun _ _ => 0) (fun _ _ => 0) =
      Except.ok (add_noise_val (fun _ _ => 9) "banding" 0 0 (fun _ _ => 0) (fun _ _ => 0)) ∧
    add_noise_val (fun _ _ => 9) "banding" 0 0 (fun _ _ => 0) (fun _ _ => 0) 0 0 = 9 :=
  add_noise_unknown_type_silent_identity (fun _ _ => 9) "banding" 0 0
    (fun _ _ => 0) (fun _ _ => 0) 0 0 (by decide) (by decide) (by decide) (by decide)

/-! ## Claim C6: the two salt-and-pepper implementations -/

/-- C6, counterexample: on the same per-pixel draw 7/100 with
`ratio = 0.1`, `split = 0.5`, the two implementations disagree: the
from-scratch `add_noise` leaves the pixel at 50 (the draw is in neither
of its mask ranges), while the library-accelerated
`add_salt_pepper_noise` sets it to 0 — even though the claimed contract
(`0` exactly when the draw exceeds `1 - ratio·(1-split) = 0.95`) does not
select this pixel. -/
theorem salt_pepper_impls_disagree_cex :
    add_noise_val (fun _ _ => 50) "salt_pepper" (1/10) (1/2) (fun _ _ => 0)
      (fun _ _ => 7/100) 0 0 = 50 ∧
    add_salt_pepper_noise (fun _ _ => 50) (1/10) (1/2) (fun _ _ => 7/100) 0 0 = 0 ∧
    ¬ ((7:ℚ)/100 > 1 - (1/10) * (1 - 1/2)) := by
  refine ⟨?_, ?_, by norm_num⟩
  · simp only [add_noise_val]
    rw [if_neg (show ¬("salt_pepper" = "gaussian") by decide),
        if_neg (show ¬("salt_pepper" = "uniform") by decide)]
    rw [if_pos (show True from trivial)]
    rw [if_neg (by norm_num : ¬((7:ℚ)/100 > 1 - max 0 (min (1/10) (1/10)) * (1 - 1/2))),
        if_neg (by norm_num : ¬((7:ℚ)/100 < max 0 (min (1/10) (1/10)) * (1/2)))]
    exact u8clip_coe 50 (by norm_num)
  · simp only [add_salt_pepper_noise]
    rw [if_neg (by norm_num : ¬((1:ℚ)/10 ≤ 0))]
    norm_num

/-- C6, amended: given the same per-pixel draws, the two implementations
satisfy different per-pixel contracts.  The from-scratch `add_noise`
(with the ratio inside its clamp range) sets a pixel to 0 exactly when
its draw exceeds `1 - ratio·(1-split)` and otherwise to 255 exactly when
its draw is below `ratio·split`; the library-accelerated
`add_salt_pepper_noise` agrees on the salt rule but takes its pepper
pixels from `[ratio·split, ratio)` instead, so the outputs need not
coincide on the same draws. -/
theorem salt_pepper_impls_characterization
    (img : Nat → Nat → ℕ) (ratio split : ℚ) (noiseDraw rnd : Nat → Nat → ℚ) (i j : Nat)
    (hr0 : 0 ≤ ratio) (hr1 : ratio ≤ 1/10) (himg : img i j ≤ 255) (hrnd0 : 0 ≤ rnd i j) :
    add_noise_val img "salt_pepper" ratio split noiseDraw rnd i j =
      (if rnd i j > 1 - ratio * (1 - split) then 0
       else if rnd i j < ratio * split then 255 else img i j) ∧
    add_salt_pepper_noise img ratio split rnd i j =
      (if rnd i j < ratio * split then 255
       else if rnd i j < ratio then 0 else img i j) := by
  constructor
  · simp only [add_noise_val]
    rw [if_neg (show ¬("salt_pepper" = "gaussian") by decide),
        if_neg (show ¬("salt_pepper" = "uniform") by decide)]
    rw [if_pos (show True from trivial)]
    rw [min_eq_right hr1, max_eq_right hr0]
    split_ifs with hp hs
    · exact u8clip_zero
    · exact u8clip_255
    · exact u8clip_coe _ himg
  · simp only [add_salt_pepper_noise]
    by_cases hle : ratio ≤ 0
    · rw [if_pos hle]
      have hz : ratio = 0 := le_antisymm hle hr0
      subst hz
      rw [zero_mul, if_neg (not_lt.mpr hrnd0), if_neg (not_lt.mpr hrnd0)]
    · rw [if_neg hle]

/-- C6, witness for `salt_pepper_impls_characterization` on a 1×1 image of
value 9 with `ratio = 1/20`, `split = 1/2` and draw 3/4. -/
theorem salt_pepper_impls_characterization_witness :
    add_noise_val (fun _ _ => 9) "salt_pepper" (1/20) (1/2) (fun _ _ => 0)
      (fun _ _ => 3/4) 0 0 =
      (if (3/4 : ℚ) > 1 - (1/20) * (1 - 1/2) then 0
       else if (3/4 : ℚ) < (1/20) * (1/2) then 255 else 9) ∧
    add_salt_pepper_noise (fun _ _ => 9) (1/20) (1/2) (fun _ _ => 3/4) 0 0 =
      (if (3/4 : ℚ) < (1/20) * (1/2) then 255
       else if (3/4 : ℚ) < 1/20 then 0 else 9) :=
  salt_pepper_impls_characterization (fun _ _ => 9) (1/20) (1/2) (fun _ _ => 0)
    (fun _ _ => 3/4) 0 0 (by norm_num) (by norm_num) (by norm_num) (by norm_num)

/-! ## Claims C4 and C10: range normalization -/

theorem matMinQ_nonneg (h w : Nat) (img : Nat → Nat → ℕ) (hh : 0 < h) (hw : 0 < w) :
    0 ≤ matMinQ h w (fun a b => (img a b : ℚ)) := by
  have hmem := listMin_mem (0:ℚ) ((idxs h w).map fun p => ((img p.1 p.2 : ℕ) : ℚ))
    (by simp [idxs_ne_nil h w hh hw])
  rcases List.mem_map.mp hmem with ⟨p, _, hp⟩
  rw [matMinQ, ← hp]
  positivity

/-- C4, counterexample: a 1×1 constant buffer of value 5 is degenerate
(its rescale divides by `max - min = 0`), yet `normalize_image` does not
return it unchanged: in both range modes the guard `max > 0` passes, the
division is `0/0`, and the returned sample is NaN-derived garbage
(`none`), not `some 5`. -/
theorem normalize_constant_buffer_cex :
    normalize_image 1 1 (fun _ _ => 5) "0-1" 0 0 = none ∧
    normalize_image 1 1 (fun _ _ => 5) "0-255" 0 0 = none ∧
    (none : Option ℕ) ≠ some 5 := by
  refine ⟨?_, ?_, by decide⟩
  · norm_num [normalize_image, matMaxQ, matMinQ, idxs, listMax, listMin, fdiv]
  · norm_num [normalize_image, matMaxQ, matMinQ, idxs, listMax, listMin, fdiv]

/-- C4, amended: the only degenerate buffers `normalize_image` returns
unchanged are the all-zero ones (where `max > 0` fails); a constant
buffer of nonzero value passes the guard, divides by `max - min = 0`,
and yields NaN samples (`none`) at every pixel — in either range mode. -/
theorem normalize_degenerate (h w : Nat) (img : Nat → Nat → ℕ) (mode : String)
    (i j : Nat) (c : ℕ) (hh : 0 < h) (hw : 0 < w) (hi : i < h) (hj : j < w)
    (hc : ∀ a b, a < h → b < w → img a b = c) :
    (c = 0 → normalize_image h w img mode i j = some (img i j)) ∧
    (0 < c → normalize_image h w img mode i j = none) := by
  have hmx : matMaxQ h w (fun a b => (img a b : ℚ)) = (c : ℚ) :=
    matMaxQ_const h w _ _ hh hw (fun a b ha hb => by rw [hc a b ha hb])
  have hmn : matMinQ h w (fun a b => (img a b : ℚ)) = (c : ℚ) :=
    matMinQ_const h w _ _ hh hw (fun a b ha hb => by rw [hc a b ha hb])
  constructor
  · intro h0
    subst h0
    simp only [normalize_image]
    rw [hmx]
    have hnlt : ¬ ((0:ℚ) < ((0:ℕ) : ℚ)) := by norm_num
    simp only [hnlt, if_false, ite_self]
    simp [u8ofQ_coe (img i j) (by rw [hc i j hi hj]; norm_num)]
  · intro hpos
    simp only [normalize_image]
    rw [hmx, hmn]
    have h0c : (0:ℚ) < (c : ℚ) := by exact_mod_cast hpos
    simp [fdiv, h0c, sub_self]

/-- C4, witness for `normalize_degenerate` on a 1×1 all-zero buffer and a
1×1 constant buffer of value 9. -/
theorem normalize_degenerate_witness :
    (normalize_image 1 1 (fun _ _ => 0) "0-1" 0 0 = some 0) ∧
    (normalize_image 1 1 (fun _ _ => 9) "0-255" 0 0 = none) :=
  ⟨(normalize_degenerate 1 1 (fun _ _ => 0) "0-1" 0 0 0 (by decide) (by decide)
      (by decide) (by decide) (fun _ _ _ _ => rfl)).1 rfl,
   (normalize_degenerate 1 1 (fun _ _ => 9) "0-255" 0 0 9 (by decide) (by decide)
      (by decide) (by decide) (fun _ _ _ _ => rfl)).2 (by decide)⟩

/-- C10: in the `'0-1'` mode, for a non-constant buffer (max > min) every
returned sample of `normalize_image` is 0 or 1: the rescaled values lie
in [0,1] and are cast to uint8 by truncation, with no multiplication by
255. -/
theorem normalize_01_binary (h w : Nat) (img : Nat → Nat → ℕ) (i j : Nat)
    (hi : i < h) (hj : j < w)
    (hne : matMinQ h w (fun a b => (img a b : ℚ)) < matMaxQ h w (fun a b => (img a b : ℚ))) :
    normalize_image h w img "0-1" i j = some 0 ∨ normalize_image h w img "0-1" i j = some 1 := by
  have hh : 0 < h := lt_of_le_of_lt (Nat.zero_le i) hi
  have hw : 0 < w := lt_of_le_of_lt (Nat.zero_le j) hj
  have hmn0 : 0 ≤ matMinQ h w (fun a b => (img a b : ℚ)) := matMinQ_nonneg h w img hh hw
  have h0mx : 0 < matMaxQ h w (fun a b => (img a b : ℚ)) := lt_of_le_of_lt hmn0 hne
  simp only [normalize_image]
  rw [if_pos (show True from trivial), if_pos h0mx]
  rw [fdiv, if_neg (sub_ne_zero.mpr hne.ne')]
  have hq0 : 0 ≤ ((img i j : ℚ) - matMinQ h w (fun a b => (img a b : ℚ))) /
      (matMaxQ h w (fun a b => (img a b : ℚ)) - matMinQ h w (fun a b => (img a b : ℚ))) :=
    div_nonneg (sub_nonneg.mpr (matMinQ_le h w _ i j hi hj)) (sub_nonneg.mpr hne.le)
  have hq1 : ((img i j : ℚ) - matMinQ h w (fun a b => (img a b : ℚ))) /
      (matMaxQ h w (fun a b => (img a b : ℚ)) - matMinQ h w (fun a b => (img a b : ℚ))) ≤ 1 :=
    (div_le_one (sub_pos.mpr hne)).mpr (sub_le_sub_right (le_matMaxQ h w _ i j hi hj) _)
  have hfl0 : 0 ≤ ⌊((img i j : ℚ) - matMinQ h w (fun a b => (img a b : ℚ))) /
      (matMaxQ h w (fun a b => (img a b : ℚ)) - matMinQ h w (fun a b => (img a b : ℚ)))⌋ :=
    Int.floor_nonneg.mpr hq0
  have hfl1 : ⌊((img i j : ℚ) - matMinQ h w (fun a b => (img a b : ℚ))) /
      (matMaxQ h w (fun a b => (img a b : ℚ)) - matMinQ h w (fun a b => (img a b : ℚ)))⌋ ≤ 1 := by
    have hle := Int.floor_le_floor hq1
    simpa using hle
  rcases (by omega : ⌊((img i j : ℚ) - matMinQ h w (fun a b => (img a b : ℚ))) /
      (matMaxQ h w (fun a b => (img a b : ℚ)) - matMinQ h w (fun a b => (img a b : ℚ)))⌋ = 0 ∨
      ⌊((img i j : ℚ) - matMinQ h w (fun a b => (img a b : ℚ))) /
      (matMaxQ h w (fun a b => (img a b : ℚ)) - matMinQ h w (fun a b => (img a b : ℚ)))⌋ = 1) with hq | hq
  · left
    simp [u8ofQ, hq]
    decide
  · right
    simp [u8ofQ, hq]
    decide

/-- C10, witness for `normalize_01_binary` on a 2×1 buffer with samples 0
and 200. -/
theorem normalize_01_binary_witness :
    normalize_image 2 1 (fun a _ => if a = 0 then 0 else 200) "0-1" 0 0 = some 0 ∨
    normalize_image 2 1 (fun a _ => if a = 0 then 0 else 200) "0-1" 0 0 = some 1 :=
  normalize_01_binary 2 1 (fun a _ => if a = 0 then 0 else 200) 0 0 (by decide) (by decide)
    (by norm_num [matMinQ, matMaxQ, idxs, listMin, listMax])

/-! ## Claims C1 and C3: edge detection -/

theorem robertsIdx (n i a : Nat) (hi : i < n) (ha : a < 2) :
    clampIdx ((i + (if min (i + 2) n - i = 1 then 0 else a) : Nat) : ℤ) n = min (i + a) (n - 1) := by
  split_ifs with hc
  · simp only [clampIdx]
    omega
  · simp only [clampIdx]
    omega

theorem convolve2d_edge_const (h w : Nat) (c : ℚ) (k pad : Nat) (ker : Nat → Nat → ℚ) (i j : Nat) :
    convolve2d_edge h w (fun _ _ => c) k pad ker i j =
      (∑ a ∈ Finset.range k, ∑ b ∈ Finset.range k, ker a b) * c := by
  simp only [convolve2d_edge, paddedVal]
  rw [Finset.sum_mul]
  refine Finset.sum_congr rfl fun a _ => ?_
  rw [Finset.sum_mul]

theorem sobelKx_sum : (∑ a ∈ Finset.range 3, ∑ b ∈ Finset.range 3, sobelKx a b) = 0 := by
  norm_num [Finset.sum_range_succ, sobelKx, matOfLists]

theorem sobelKy_sum : (∑ a ∈ Finset.range 3, ∑ b ∈ Finset.range 3, sobelKy a b) = 0 := by
  norm_num [Finset.sum_range_succ, sobelKy, matOfLists]

theorem prewittKx_sum : (∑ a ∈ Finset.range 3, ∑ b ∈ Finset.range 3, prewittKx a b) = 0 := by
  norm_num [Finset.sum_range_succ, prewittKx, matOfLists]

theorem prewittKy_sum : (∑ a ∈ Finset.range 3, ∑ b ∈ Finset.range 3, prewittKy a b) = 0 := by
  norm_num [Finset.sum_range_succ, prewittKy, matOfLists]

theorem robertsKx_sum : (∑ a ∈ Finset.range 2, ∑ b ∈ Finset.range 2, robertsKx a b) = 0 := by
  norm_num [Finset.sum_range_succ, robertsKx, matOfLists]

theorem robertsKy_sum : (∑ a ∈ Finset.range 2, ∑ b ∈ Finset.range 2, robertsKy a b) = 0 := by
  norm_num [Finset.sum_range_succ, robertsKy, matOfLists]

theorem gradMagnitude_zero (gx gy : Nat → Nat → ℚ) (i j : Nat)
    (hx : gx i j = 0) (hy : gy i j = 0) : gradMagnitude gx gy i j = 0 := by
  rw [gradMagnitude, hx, hy]
  norm_num

theorem rescaleU8Q_none (h w : Nat) (m : Nat → Nat → ℚ) (hh : 0 < h) (hw : 0 < w)
    (hz : ∀ i j, i < h → j < w → m i j = 0) (i j : Nat) :
    rescaleU8Q h w m i j = none := by
  simp only [rescaleU8Q]
  rw [matMaxQ_const h w m 0 hh hw hz]
  simp

theorem rescaleU8R_none (h w : Nat) (m : Nat → Nat → ℝ) (hh : 0 < h) (hw : 0 < w)
    (hz : ∀ i j, i < h → j < w → m i j = 0) (i j : Nat) :
    rescaleU8R h w m i j = none := by
  simp only [rescaleU8R]
  rw [matMaxR_const h w m 0 hh hw hz]
  simp

theorem rescaleGuardedQ_id (h w : Nat) (m : Nat → Nat → ℚ) (hh : 0 < h) (hw : 0 < w)
    (hz : ∀ i j, i < h → j < w → m i j = 0) (i j : Nat) :
    rescaleGuardedQ h w m i j = some (m i j) := by
  simp only [rescaleGuardedQ]
  rw [matMaxQ_const h w m 0 hh hw hz]
  simp

/-- C1, evaluation at the failing input: on the 2×2 constant image of
value 100 every pre-rescale gradient and the magnitude are identically
zero — but because the rescales of `sobel_edge` and `prewitt_edge` and
the magnitude rescale of `roberts_edge` divide by the maximum without a
guard, all those returned buffers are NaN-derived garbage (`none`)
rather than zero; only the two guarded gradient rescales of
`roberts_edge` return clean zeros. -/
theorem sobel_prewitt_roberts_const_image_nan :
    ∀ i j : Nat,
      sobelGradX 2 2 (fun _ _ => 100) i j = 0 ∧
      sobelGradY 2 2 (fun _ _ => 100) i j = 0 ∧
      gradMagnitude (sobelGradX 2 2 (fun _ _ => 100)) (sobelGradY 2 2 (fun _ _ => 100)) i j = 0 ∧
      (sobel_edge 2 2 (fun _ _ => 100)).1 i j = none ∧
      (sobel_edge 2 2 (fun _ _ => 100)).2.1 i j = none ∧
      (sobel_edge 2 2 (fun _ _ => 100)).2.2 i j = none ∧
      (prewitt_edge 2 2 (fun _ _ => 100)).1 i j = none ∧
      (prewitt_edge 2 2 (fun _ _ => 100)).2.1 i j = none ∧
      (prewitt_edge 2 2 (fun _ _ => 100)).2.2 i j = none ∧
      (roberts_edge 2 2 (fun _ _ => 100)).1 i j = none ∧
      (roberts_edge 2 2 (fun _ _ => 100)).2.1 i j = some 0 ∧
      (roberts_edge 2 2 (fun _ _ => 100)).2.2 i j = some 0 := by
  have hsx : ∀ a b : Nat, sobelGradX 2 2 (fun _ _ => 100) a b = 0 := fun a b => by
    rw [sobelGradX, convolve2d_edge_const, sobelKx_sum, zero_mul]
  have hsy : ∀ a b : Nat, sobelGradY 2 2 (fun _ _ => 100) a b = 0 := fun a b => by
    rw [sobelGradY, convolve2d_edge_const, sobelKy_sum, zero_mul]
  have hpx : ∀ a b : Nat, prewittGradX 2 2 (fun _ _ => 100) a b = 0 := fun a b => by
    rw [prewittGradX, convolve2d_edge_const, prewittKx_sum, zero_mul]
  have hpy : ∀ a b : Nat, prewittGradY 2 2 (fun _ _ => 100) a b = 0 := fun a b => by
    rw [prewittGradY, convolve2d_edge_const, prewittKy_sum, zero_mul]
  have hrx : ∀ a b : Nat, robertsGradX 2 2 (fun _ _ => 100) a b = 0 := fun a b => by
    rw [robertsGradX, convolve2d_edge_const, robertsKx_sum, zero_mul]
  have hry : ∀ a b : Nat, robertsGradY 2 2 (fun _ _ => 100) a b = 0 := fun a b => by
    rw [robertsGradY, convolve2d_edge_const, robertsKy_sum, zero_mul]
  intro i j
  refine ⟨hsx i j, hsy i j, gradMagnitude_zero _ _ i j (hsx i j) (hsy i j),
    ?_, ?_, ?_, ?_, ?_, ?_, ?_, ?_, ?_⟩
  · exact rescaleU8R_none 2 2 _ (by decide) (by decide)
      (fun a b _ _ => gradMagnitude_zero _ _ a b (hsx a b) (hsy a b)) i j
  · exact rescaleU8Q_none 2 2 _ (by decide) (by decide)
      (fun a b _ _ => by rw [hsx a b, abs_zero]) i j
  · exact rescaleU8Q_none 2 2 _ (by decide) (by decide)
      (fun a b _ _ => hsy a b) i j
  · exact rescaleU8R_none 2 2 _ (by decide) (by decide)
      (fun a b _ _ => gradMagnitude_zero _ _ a b (hpx a b) (hpy a b)) i j
  · exact rescaleU8Q_none 2 2 _ (by decide) (by decide)
      (fun a b _ _ => by rw [hpx a b, abs_zero]) i j
  · exact rescaleU8Q_none 2 2 _ (by decide) (by decide)
      (fun a b _ _ => hpy a b) i j
  · exact rescaleU8R_none 2 2 _ (by decide) (by decide)
      (fun a b _ _ => gradMagnitude_zero _ _ a b (hrx a b) (hry a b)) i j
  · show rescaleGuardedQ 2 2 (fun a b => |robertsGradX 2 2 (fun _ _ => 100) a b|) i j = some 0
    rw [rescaleGuardedQ_id 2 2 _ (by decide) (by decide)
      (fun a b _ _ => by rw [hrx a b, abs_zero]) i j]
    rw [hrx i j, abs_zero]
  · show rescaleGuardedQ 2 2 (robertsGradY 2 2 (fun _ _ => 100)) i j = some 0
    rw [rescaleGuardedQ_id 2 2 _ (by decide) (by decide) (fun a b _ _ => hry a b) i j, hry i j]

/-- C3, counterexample: at the last-row pixel (1,0) of the 2×2 image
`[[0,0],[1,2]]` the Roberts convolution produced by the code is -1,
whereas the kernel-weighted sum over the zero-padded window is 1 — the
code does not zero-pad (it slices past the end and numpy broadcasting
replicates the remaining row), so the claimed per-pixel equation fails. -/
theorem roberts_not_zero_padded_cex :
    convolve2d_edge 2 2 (matOfLists [[0,0],[1,2]]) 2 0 robertsKx 1 0 = -1 ∧
    robertsZeroPadConv 2 2 (matOfLists [[0,0],[1,2]]) robertsKx 1 0 = 1 ∧
    (-1 : ℚ) ≠ 1 := by
  refine ⟨?_, ?_, by norm_num⟩
  · norm_num [convolve2d_edge, Finset.sum_range_succ, robertsKx, matOfLists, paddedVal, clampIdx]
  · norm_num [robertsZeroPadConv, Finset.sum_range_succ, robertsKx, matOfLists]

/-- C3, amended: with `pad = 0` the Roberts path performs no padding at
all; trailing 2×2 windows are clipped by the slice and numpy
broadcasting repeats the single remaining row/column, which coincides
with clamping the sample index to the last row/column.  Hence every
Roberts gradient value equals the kernel-weighted sum over the
index-clamped (edge-replicated) window, not over a zero-padded one. -/
theorem roberts_conv_clamped_window (h w : Nat) (g : Nat → Nat → ℚ) (ker : Nat → Nat → ℚ)
    (i j : Nat) (hi : i < h) (hj : j < w) :
    convolve2d_edge h w g 2 0 ker i j =
      ∑ a ∈ Finset.range 2, ∑ b ∈ Finset.range 2,
        ker a b * g (min (i + a) (h - 1)) (min (j + b) (w - 1)) := by
  simp only [convolve2d_edge, paddedVal, Nat.mul_zero, Nat.add_zero, CharP.cast_eq_zero, sub_zero]
  refine Finset.sum_congr rfl fun a ha => Finset.sum_congr rfl fun b hb => ?_
  rw [robertsIdx h i a hi (Finset.mem_range.mp ha),
      robertsIdx w j b hj (Finset.mem_range.mp hb)]

/-- C3, witness for `roberts_conv_clamped_window` at pixel (1,0) of the
2×2 image `[[0,0],[1,2]]`. -/
theorem roberts_conv_clamped_window_witness :
    convolve2d_edge 2 2 (matOfLists [[0,0],[1,2]]) 2 0 robertsKy 1 0 =
      ∑ a ∈ Finset.range 2, ∑ b ∈ Finset.range 2,
        robertsKy a b * matOfLists [[0,0],[1,2]] (min (1 + a) (2 - 1)) (min (0 + b) (2 - 1)) :=
  roberts_conv_clamped_window 2 2 (matOfLists [[0,0],[1,2]]) robertsKy 1 0
    (by decide) (by decide)

/-! ## Claim C9: Gaussian kernel normalization -/

/-- C9: for every `sigma > 0` and every odd kernel size, the normalized
Gaussian kernel of `create_gaussian_kernel` has weights summing to 1
within tolerance 1e-5 (exactly 1 in exact arithmetic: the raw
exponentials are strictly positive, so dividing by their total
normalizes the sum). -/
theorem gaussian_kernel_sums_to_one (size : Nat) (sigma : ℝ)
    (hodd : Odd size) (hs : 0 < sigma) :
    |(∑ i ∈ Finset.range size, ∑ j ∈ Finset.range size,
        create_gaussian_kernel size sigma i j) - 1| ≤ 1/100000 := by
  have hpos : 0 < size := hodd.pos
  have htot : 0 < ∑ i ∈ Finset.range size, ∑ j ∈ Finset.range size,
      Real.exp (-(((i:ℝ) - (size/2 : Nat))^2 + ((j:ℝ) - (size/2 : Nat))^2) / (2 * sigma^2)) := by
    apply Finset.sum_pos
    · intro i _
      apply Finset.sum_pos
      · intro j _
        exact Real.exp_pos _
      · exact Finset.nonempty_range_iff.mpr hpos.ne'
    · exact Finset.nonempty_range_iff.mpr hpos.ne'
  have hsum : (∑ i ∈ Finset.range size, ∑ j ∈ Finset.range size,
      create_gaussian_kernel size sigma i j) = 1 := by
    simp only [create_gaussian_kernel, ← Finset.sum_div]
    exact div_self (ne_of_gt htot)
  rw [hsum]
  norm_num

/-- C9, witness for `gaussian_kernel_sums_to_one` at size 3, sigma 1. -/
theorem gaussian_kernel_sums_to_one_witness :
    |(∑ i ∈ Finset.range 3, ∑ j ∈ Finset.range 3,
        create_gaussian_kernel 3 1 i j) - 1| ≤ 1/100000 :=
  gaussian_kernel_sums_to_one 3 1 (by decide) one_pos

/-! ## Claim C8: no operation mutates its input -/

theorem Store.read_write_ne (σ : Store) (i j : Nat) (b : Buf) (hij : i ≠ j) :
    (σ.write i b).read j = σ.read j := by
  simp [Store.write, Store.read, List.getD_eq_getElem?_getD, List.getElem?_set_ne hij]

theorem Store.read_alloc_lt (σ : Store) (b : Buf) (i : Nat) (h : i < σ.size) :
    (σ.alloc b).1.read i = σ.read i := by
  simp only [Store.alloc, Store.read]
  exact List.getD_append _ _ _ _ h

theorem Store.size_alloc (σ : Store) (b : Buf) : (σ.alloc b).1.size = σ.size + 1 := by
  simp [Store.alloc, Store.size]

theorem Store.size_write (σ : Store) (i : Nat) (b : Buf) : (σ.write i b).size = σ.size := by
  simp [Store.write, Store.size]

theorem foldl_write_read {β : Type} (g : Store → β → Buf) (resId imgId : Nat)
    (hne : resId ≠ imgId) (l : List β) (σ : Store) :
    (l.foldl (fun τ x => τ.write resId (g τ x)) σ).read imgId = σ.read imgId := by
  induction l generalizing σ with
  | nil => rfl
  | cons x l ih =>
    rw [List.foldl_cons, ih, Store.read_write_ne _ _ _ _ hne]

/-- C8: the operations cited by the claim do not mutate their input and
return a fresh buffer.  In the allocation-store model, for every store
and every valid input id, both `median_filter_2d` and `add_noise` (all of
its noise-type branches) leave the buffer at the input id exactly as it
was and return the id of a freshly allocated buffer, distinct from the
input id: every in-place write of either operation targets an array the
operation itself allocated. -/
theorem ops_no_mutation (σ : Store) (imgId ks pad : Nat) (nt : String)
    (ratio split : ℚ) (nd rnd : Nat → Nat → ℚ) (hlt : imgId < σ.size) :
    ((median_filter_2d_st σ imgId ks pad).1.read imgId = σ.read imgId ∧
     (median_filter_2d_st σ imgId ks pad).2 ≠ imgId) ∧
    ((add_noise_st σ imgId nt ratio split nd rnd).1.read imgId = σ.read imgId ∧
     (add_noise_st σ imgId nt ratio split nd rnd).2 ≠ imgId) := by
  constructor
  · have hne : ((σ.alloc (edgePadBuf (σ.read imgId) pad)).1.alloc
        ⟨(σ.read imgId).bh, (σ.read imgId).bw, fun _ _ => 0⟩).2 ≠ imgId := by
      simp only [Store.alloc, List.length_append, Store.size] at *
      omega
    constructor
    · simp only [median_filter_2d_st]
      refine (foldl_write_read _ _ _ hne _ _).trans ?_
      rw [Store.read_alloc_lt _ _ _ (by rw [Store.size_alloc]; exact Nat.lt_succ_of_lt hlt),
          Store.read_alloc_lt _ _ _ hlt]
    · simp only [median_filter_2d_st]
      exact hne
  · have hnoisy : ((σ.alloc (σ.read imgId)).1.alloc
        ((σ.alloc (σ.read imgId)).1.read (σ.alloc (σ.read imgId)).2)).2 ≠ imgId := by
      simp only [Store.alloc, List.length_append, Store.size] at *
      omega
    simp only [add_noise_st]
    by_cases hgu : nt = "gaussian" ∨ nt = "uniform"
    · rw [if_pos hgu]
      constructor
      · rw [Store.read_alloc_lt _ _ _
            (by rw [Store.size_alloc, Store.size_alloc, Store.size_alloc]; omega),
          Store.read_alloc_lt _ _ _ (by rw [Store.size_alloc, Store.size_alloc]; omega),
          Store.read_alloc_lt _ _ _ (by rw [Store.size_alloc]; omega),
          Store.read_alloc_lt _ _ _ hlt]
      · simp only [Store.alloc, List.length_append, Store.size] at *
        omega
    · rw [if_neg hgu]
      by_cases hsp : nt = "salt_pepper"
      · rw [if_pos hsp]
        constructor
        · rw [Store.read_alloc_lt _ _ _
              (by rw [Store.size_write, Store.size_write, Store.size_alloc,
                  Store.size_alloc, Store.size_alloc]; omega),
            Store.read_write_ne _ _ _ _ hnoisy, Store.read_write_ne _ _ _ _ hnoisy,
            Store.read_alloc_lt _ _ _ (by rw [Store.size_alloc, Store.size_alloc]; omega),
            Store.read_alloc_lt _ _ _ (by rw [Store.size_alloc]; omega),
            Store.read_alloc_lt _ _ _ hlt]
        · simp only [Store.alloc, Store.write, List.length_append, List.length_set,
            Store.size] at *
          omega
      · rw [if_neg hsp]
        constructor
        · rw [Store.read_alloc_lt _ _ _ (by rw [Store.size_alloc, Store.size_alloc]; omega),
            Store.read_alloc_lt _ _ _ (by rw [Store.size_alloc]; omega),
            Store.read_alloc_lt _ _ _ hlt]
        · simp only [Store.alloc, List.length_append, Store.size] at *
          omega

/-- C8, witness for `ops_no_mutation` on a one-buffer store holding a 1×1
image of value 7, with the salt-and-pepper branch. -/
theorem ops_no_mutation_witness :
    ((median_filter_2d_st [⟨1, 1, fun _ _ => 7⟩] 0 3 1).1.read 0 =
        Store.read [⟨1, 1, fun _ _ => 7⟩] 0 ∧
     (median_filter_2d_st [⟨1, 1, fun _ _ => 7⟩] 0 3 1).2 ≠ 0) ∧
    ((add_noise_st [⟨1, 1, fun _ _ => 7⟩] 0 "salt_pepper" (1/20) (1/2)
        (fun _ _ => 0) (fun _ _ => 1/2)).1.read 0 = Store.read [⟨1, 1, fun _ _ => 7⟩] 0 ∧
     (add_noise_st [⟨1, 1, fun _ _ => 7⟩] 0 "salt_pepper" (1/20) (1/2)
        (fun _ _ => 0) (fun _ _ => 1/2)).2 ≠ 0) :=
  ops_no_mutation [⟨1, 1, fun _ _ => 7⟩] 0 3 1 "salt_pepper" (1/20) (1/2)
    (fun _ _ => 0) (fun _ _ => 1/2) (by decide)

/-! ## Claim C7: low-pass filter with cutoff 0 -/

theorem shiftIdx_self (n s : Nat) : shiftIdx n s s = 0 := by
  simp [shiftIdx]

theorem freqDist_le_zero_iff (M N i j : Nat) :
    freqDist M N i j ≤ 0 ↔ i = M / 2 ∧ j = N / 2 := by
  constructor
  · intro h
    have hz : Real.sqrt (((j : ℝ) - (N / 2 : Nat)) ^ 2 + ((i : ℝ) - (M / 2 : Nat)) ^ 2) = 0 :=
      le_antisymm h (Real.sqrt_nonneg _)
    have hA : ((j : ℝ) - (N / 2 : Nat)) ^ 2 + ((i : ℝ) - (M / 2 : Nat)) ^ 2 ≤ 0 :=
      Real.sqrt_eq_zero'.mp hz
    have h1 : ((j : ℝ) - (N / 2 : Nat)) ^ 2 = 0 := by
      nlinarith [sq_nonneg ((j : ℝ) - (N / 2 : Nat)), sq_nonneg ((i : ℝ) - (M / 2 : Nat))]
    have h2 : ((i : ℝ) - (M / 2 : Nat)) ^ 2 = 0 := by
      nlinarith [sq_nonneg ((j : ℝ) - (N / 2 : Nat)), sq_nonneg ((i : ℝ) - (M / 2 : Nat))]
    constructor
    · have hcast := sub_eq_zero.mp (pow_eq_zero_iff (by norm_num : 2 ≠ 0) |>.mp h2)
      exact_mod_cast hcast
    · have hcast := sub_eq_zero.mp (pow_eq_zero_iff (by norm_num : 2 ≠ 0) |>.mp h1)
      exact_mod_cast hcast
  · rintro ⟨rfl, rfl⟩
    simp [freqDist]

theorem add_half_mod (n u : Nat) (hn : 0 < n) (hu : u < n) :
    ((u + n / 2) % n = n / 2) ↔ u = 0 := by
  by_cases hc : u + n / 2 < n
  · rw [Nat.mod_eq_of_lt hc]
    omega
  · rw [Nat.mod_eq_sub_mod (by omega), Nat.mod_eq_of_lt (by omega)]
    omega

theorem fshiftFiltered_low0 (M N : Nat) (g : Nat → Nat → ℚ) (i j : Nat) :
    fshiftFiltered M N g "low" 0 i j =
      if i = M / 2 ∧ j = N / 2 then fft2 M N g 0 0 else 0 := by
  simp only [fshiftFiltered, if_true]
  split_ifs with hd hc hc
  · rw [hc.1, hc.2, shiftIdx_self, shiftIdx_self]
  · exact absurd ((freqDist_le_zero_iff M N i j).mp hd) hc
  · exact absurd ((freqDist_le_zero_iff M N i j).mpr hc) hd
  · rfl

theorem unshifted_low0 (M N : Nat) (g : Nat → Nat → ℚ) (u v : Nat)
    (hM : 0 < M) (hN : 0 < N) (hu : u < M) (hv : v < N) :
    fshiftFiltered M N g "low" 0 ((u + M / 2) % M) ((v + N / 2) % N) =
      if u = 0 ∧ v = 0 then fft2 M N g 0 0 else 0 := by
  rw [fshiftFiltered_low0]
  by_cases hc : u = 0 ∧ v = 0
  · rw [if_pos ⟨(add_half_mod M u hM hu).mpr hc.1, (add_half_mod N v hN hv).mpr hc.2⟩,
        if_pos hc]
  · rw [if_neg (fun hab => hc ⟨(add_half_mod M u hM hu).mp hab.1,
        (add_half_mod N v hN hv).mp hab.2⟩), if_neg hc]

theorem frequency_filter_pre_low0 (M N : Nat) (g : Nat → Nat → ℚ)
    (hM : 0 < M) (hN : 0 < N) (hg : ∀ a b, a < M → b < N → 0 ≤ g a b) (x y : Nat) :
    frequency_filter_pre M N g "low" 0 x y =
      (∑ a ∈ Finset.range M, ∑ b ∈ Finset.range N, (g a b : ℝ)) / (M * N) := by
  simp only [frequency_filter_pre]
  have hsum : (∑ u ∈ Finset.range M, ∑ v ∈ Finset.range N,
      fshiftFiltered M N g "low" 0 ((u + M / 2) % M) ((v + N / 2) % N) *
        Complex.exp ((2 * Real.pi * Complex.I) * ((u : ℂ) * x / M + (v : ℂ) * y / N))) =
      fft2 M N g 0 0 := by
    rw [Finset.sum_eq_single_of_mem 0 (Finset.mem_range.mpr hM)]
    · rw [Finset.sum_eq_single_of_mem 0 (Finset.mem_range.mpr hN)]
      · rw [unshifted_low0 M N g 0 0 hM hN hM hN, if_pos ⟨rfl, rfl⟩]
        have hexp : ((2 * (Real.pi : ℂ) * Complex.I) *
            (((0:ℕ) : ℂ) * x / M + ((0:ℕ) : ℂ) * y / N)) = 0 := by
          push_cast
          ring
        rw [hexp, Complex.exp_zero, mul_one]
      · intro v hv hvne
        rw [unshifted_low0 M N g 0 v hM hN hM (Finset.mem_range.mp hv),
            if_neg (by simp [hvne]), zero_mul]
    · intro u hu hune
      refine Finset.sum_eq_zero fun v hv => ?_
      rw [unshifted_low0 M N g u v hM hN (Finset.mem_range.mp hu) (Finset.mem_range.mp hv),
          if_neg (by simp [hune]), zero_mul]
  rw [hsum]
  have hf : fft2 M N g 0 0 =
      (((∑ a ∈ Finset.range M, ∑ b ∈ Finset.range N, (g a b : ℝ)) : ℝ) : ℂ) := by
    simp only [fft2]
    push_cast
    refine Finset.sum_congr rfl fun a _ => Finset.sum_congr rfl fun b _ => ?_
    have hexp : (-(2 * (Real.pi : ℂ) * Complex.I) *
        ((0 : ℂ) * a / M + (0 : ℂ) * b / N)) = 0 := by
      ring
    rw [hexp, Complex.exp_zero, mul_one]
  rw [hf]
  have hone : (1 / ((M : ℂ) * N)) = (((1 / ((M : ℝ) * N)) : ℝ) : ℂ) := by
    push_cast
    ring
  rw [hone, ← Complex.ofReal_mul, Complex.abs_ofReal]
  have hnn : 0 ≤ 1 / ((M : ℝ) * N) * (∑ a ∈ Finset.range M, ∑ b ∈ Finset.range N, (g a b : ℝ)) := by
    apply mul_nonneg
    · positivity
    · apply Finset.sum_nonneg
      intro a ha
      apply Finset.sum_nonneg
      intro b hb
      exact_mod_cast hg a b (Finset.mem_range.mp ha) (Finset.mem_range.mp hb)
  rw [abs_of_nonneg hnn]
  ring

theorem frequency_filter_low0_none (M N : Nat) (g : Nat → Nat → ℚ)
    (hM : 0 < M) (hN : 0 < N) (hg : ∀ a b, a < M → b < N → 0 ≤ g a b) (i j : Nat) :
    frequency_filter M N g "low" 0 i j = none := by
  simp only [frequency_filter]
  have hc : ∀ a b, a < M → b < N → frequency_filter_pre M N g "low" 0 a b =
      (∑ p ∈ Finset.range M, ∑ q ∈ Finset.range N, (g p q : ℝ)) / (M * N) :=
    fun a b _ _ => frequency_filter_pre_low0 M N g hM hN hg a b
  rw [matMaxR_const M N _ _ hM hN hc, matMinR_const M N _ _ hM hN hc]
  simp [fdivR, sub_self]

/-- C7, counterexample: for the 1×1 image of value 4 (mean intensity 4),
the low-pass filter with cutoff 0 does not return a buffer of value 4:
the inverse-transformed magnitude is the constant mean, so the final
min-max rescale divides by zero and the returned sample is NaN-derived
garbage (`none`), not `some 4`. -/
theorem frequency_cutoff0_not_mean_cex :
    frequency_filter 1 1 (fun _ _ => 4) "low" 0 0 0 = none ∧
    frequency_filter_pre 1 1 (fun _ _ => 4) "low" 0 0 0 = 4 ∧
    (none : Option ℕ) ≠ some 4 := by
  refine ⟨frequency_filter_low0_none 1 1 _ (by decide) (by decide)
    (fun _ _ _ _ => by norm_num) 0 0, ?_, by decide⟩
  rw [frequency_filter_pre_low0 1 1 _ (by decide) (by decide) (fun _ _ _ _ => by norm_num) 0 0]
  norm_num [Finset.sum_range_succ]

/-- C7, amended: with cutoff radius 0 the low-pass mask keeps exactly the
centred DC coefficient, so the inverse-transformed magnitude before the
final rescale is the constant mean intensity at every pixel — but the
function then min-max rescales this constant buffer, divides by
`max - min = 0`, and the buffer actually returned is NaN at every pixel
(`none`), not the mean. -/
theorem frequency_cutoff0_mean (M N : Nat) (g : Nat → Nat → ℚ) (i j : Nat)
    (hM : 0 < M) (hN : 0 < N) (hg : ∀ a b, a < M → b < N → 0 ≤ g a b) :
    frequency_filter_pre M N g "low" 0 i j =
      (∑ a ∈ Finset.range M, ∑ b ∈ Finset.range N, (g a b : ℝ)) / (M * N) ∧
    frequency_filter M N g "low" 0 i j = none :=
  ⟨frequency_filter_pre_low0 M N g hM hN hg i j,
   frequency_filter_low0_none M N g hM hN hg i j⟩

/-- C7, witness for `frequency_cutoff0_mean` on a 1×1 image of value 2. -/
theorem frequency_cutoff0_mean_witness :
    frequency_filter_pre 1 1 (fun _ _ => 2) "low" 0 0 0 =
      (∑ a ∈ Finset.range 1, ∑ b ∈ Finset.range 1, ((2 : ℚ) : ℝ)) /
        (((1 : ℕ) : ℝ) * ((1 : ℕ) : ℝ)) ∧
    frequency_filter 1 1 (fun _ _ => 2) "low" 0 0 0 = none :=
  frequency_cutoff0_mean 1 1 (fun _ _ => 2) 0 0 (by decide) (by decide)
    (fun _ _ _ _ => by norm_num)
